import Mathlib

/-
  Verification development for a causally-consistent replicated record store
  (three peer nodes, vector clocks, hold-back queue, cascade delivery).

  The embedding mirrors src/app.py.  Python dicts with string keys and
  integer values (vector clocks) are modelled as association lists
  `List (String × Int)` with a lookup that defaults to 0, matching the
  pervasive use of dict.get(key, 0) in the source.  The MongoDB collection
  is modelled as the list of inserted documents, with find_one returning
  the first document whose dni field matches; insert_one appends.  The
  record payload fields (nombre, carrera, anio, nota_promedio) are never
  inspected by the core logic, only stored and copied, so they are
  collapsed into a single opaque payload field.  The network dispatcher
  (replicar_a_peers) performs no local state change and is out of the
  model.  Per-node globals (vector_clock, hold_back_queue, log, the
  collection) become a NodeState record threaded through the operations;
  the NODE_ID environment constant becomes an explicit nodeId argument.
-/

set_option autoImplicit false

abbrev VC : Type := List (String × Int)

def NODE_IDS : List String := ["n1", "n2", "n3"]

/-- make_initial_vc: one zero slot per known node id. -/
def make_initial_vc (node_ids : List String) : VC :=
  node_ids.map (fun nid => (nid, 0))

/-- dict.get(key, 0): first value stored under the key, defaulting to 0. -/
def VC.get : VC → String → Int
  | [], _ => 0
  | p :: rest, n => if p.1 = n then p.2 else VC.get rest n

/-- vector_clock[NODE_ID] += 1 (the slot is always present in the running
system; on an absent key Python would raise KeyError, which no reachable
state triggers). -/
def VC.incr (c : VC) (nid : String) : VC :=
  c.map (fun p => if p.1 = nid then (p.1, p.2 + 1) else p)

/-- The clock merge of aplicar_operacion: for every key of the local
clock, take the pointwise max with the received clock (absent reads 0). -/
def VC.merge (c other : VC) : VC :=
  c.map (fun p => (p.1, max p.2 (VC.get other p.1)))

/-- A clock over exactly the fixed node set, in its canonical order. -/
def VC.wellFormed (c : VC) : Prop :=
  c.map Prod.fst = NODE_IDS

instance (c : VC) : Decidable (VC.wellFormed c) := by
  unfold VC.wellFormed; infer_instance

/-- Request body of POST /alumnos and PUT /alumnos/dni (the pydantic
Alumno model); the four record fields are opaque to the core. -/
structure Alumno where
  dni : String
  payload : String
deriving DecidableEq

/-- A replicated document / operation envelope: the dicts stored in the
collection, queued in hold_back_queue and posted to /replicate.  dni and
origin may be absent on raw replication input; a missing vc key reads as
the empty dict. -/
structure Doc where
  dni? : Option String
  origin? : Option String
  vc : VC
  payload : String
deriving DecidableEq

structure LogEntry where
  action : String
  dni? : Option String
  origin? : Option String
  vc : VC
deriving DecidableEq

structure NodeState where
  clock : VC
  store : List Doc
  queue : List Doc
  log : List LogEntry
deriving DecidableEq

def initState : NodeState :=
  { clock := make_initial_vc NODE_IDS, store := [], queue := [], log := [] }

/-- con.find_one on the dni field: first matching document. -/
def find_one (store : List Doc) (dni : String) : Option Doc :=
  store.find? (fun d => decide (d.dni? = some dni))

/-- list.remove(x): drop the first element equal to x; silently keep the
list when x is absent (the source wraps remove in try/except ValueError). -/
def removeFirst : List Doc → Doc → List Doc
  | [], _ => []
  | d :: ds, x => if d = x then ds else d :: removeFirst ds x

/-- update_one with a full $set: replace the first document matching the
dni with the new document. -/
def updateFirst : List Doc → String → Doc → List Doc
  | [], _, _ => []
  | d :: ds, k, nd => if d.dni? = some k then nd :: ds else d :: updateFirst ds k nd

/-- es_entregable: causal deliverability of a received clock against the
local clock.  Check 1: the operation is the direct successor of what the
local node has seen from the origin.  Check 2: no entry of the received
clock for a third node exceeds the local slot. -/
def es_entregable (vector_clock : VC) (vc_recibido : VC) (origen : String) : Bool :=
  if VC.get vc_recibido origen ≠ VC.get vector_clock origen + 1 then
    false
  else if vc_recibido.any (fun p => decide (p.1 ≠ origen ∧ VC.get vector_clock p.1 < p.2)) then
    false
  else
    true

/-- aplicar_operacion: insert the document, merge clocks, log delivery. -/
def aplicar_operacion (nodeId : String) (st : NodeState) (alumno_data : Doc) : NodeState :=
  { st with
    store := st.store ++ [alumno_data],
    clock := VC.merge st.clock alumno_data.vc,
    log := st.log ++
      [{ action := "delivered", dni? := alumno_data.dni?,
         origin? := alumno_data.origin?,
         vc := VC.merge st.clock alumno_data.vc }] }

/-- One iteration of the drain loop body of procesar_hold_back_queue. -/
def drainStep (nodeId : String) (s : NodeState) (op : Doc) : NodeState :=
  match op.origin? with
  | none => s
  | some origen =>
    if es_entregable s.clock op.vc origen then
      let s2 := aplicar_operacion nodeId s op
      { s2 with queue := removeFirst s2.queue op }
    else
      s

/-- procesar_hold_back_queue: one pass over a snapshot of the queue taken
at entry; each entry is re-checked against the clock current at its turn. -/
def procesar_hold_back_queue (nodeId : String) (st : NodeState) : NodeState :=
  st.queue.foldl (drainStep nodeId) st

inductive RepStatus where
  | error
  | ignored
  | delivered
  | queued
deriving DecidableEq

/-- recibir_replicacion (POST /replicate): validate, reject duplicates by
key, deliver-and-drain when causally ready, otherwise queue. -/
def recibir_replicacion (nodeId : String) (st : NodeState) (alumno_data : Doc) :
    NodeState × RepStatus :=
  match alumno_data.dni?, alumno_data.origin? with
  | none, _ => (st, RepStatus.error)
  | some _, none => (st, RepStatus.error)
  | some dni, some origen =>
    if (find_one st.store dni).isSome then
      (st, RepStatus.ignored)
    else if es_entregable st.clock alumno_data.vc origen then
      let st1 := aplicar_operacion nodeId st alumno_data
      let st2 := procesar_hold_back_queue nodeId st1
      (st2, RepStatus.delivered)
    else
      ({ st with
          queue := st.queue ++ [alumno_data],
          log := st.log ++
            [{ action := "queued", dni? := some dni, origin? := some origen,
               vc := alumno_data.vc }] },
        RepStatus.queued)

/-- crear_alumno (POST /alumnos): bump own slot, insert, log, and return
the new state together with the returned vector_clock and db_size. -/
def crear_alumno (nodeId : String) (st : NodeState) (alumno : Alumno) :
    NodeState × VC × Nat :=
  let clock1 := VC.incr st.clock nodeId
  let doc : Doc :=
    { dni? := some alumno.dni, origin? := some nodeId, vc := clock1,
      payload := alumno.payload }
  let st1 :=
    { st with
      clock := clock1,
      store := st.store ++ [doc],
      log := st.log ++
        [{ action := "create", dni? := some alumno.dni, origin? := some nodeId,
           vc := clock1 }] }
  (st1, clock1, st1.store.length)

/-- obtener_alumno (GET /alumnos/dni): lookup by key; none models the 404. -/
def obtener_alumno (st : NodeState) (dni : String) : Option Doc :=
  find_one st.store dni

/-- actualizar_alumno (PUT /alumnos/dni): 404 when absent, else bump own
slot, overwrite the first matching document, log; the returned Doc is the
alumno_data handed to replicar_a_peers. -/
def actualizar_alumno (nodeId : String) (st : NodeState) (dni : String) (alumno : Alumno) :
    NodeState × Option Doc :=
  if (find_one st.store dni).isSome then
    let clock1 := VC.incr st.clock nodeId
    let doc : Doc :=
      { dni? := some dni, origin? := some nodeId, vc := clock1,
        payload := alumno.payload }
    ({ st with
        clock := clock1,
        store := updateFirst st.store dni doc,
        log := st.log ++
          [{ action := "update", dni? := some dni, origin? := some nodeId,
             vc := clock1 }] },
      some doc)
  else
    (st, none)

/-- The public entry points that mutate node state. -/
inductive Step where
  | create (a : Alumno)
  | update (dni : String) (a : Alumno)
  | receive (d : Doc)
deriving DecidableEq

def stepRun (nodeId : String) (st : NodeState) : Step → NodeState
  | Step.create a => (crear_alumno nodeId st a).1
  | Step.update dni a => (actualizar_alumno nodeId st dni a).1
  | Step.receive d => (recibir_replicacion nodeId st d).1

def run (nodeId : String) (st : NodeState) (steps : List Step) : NodeState :=
  steps.foldl (stepRun nodeId) st

/-! ### Basic facts about the clock lookup -/

theorem VC.get_eq_zero_of_not_mem (c : VC) (n : String) (h : n ∉ c.map Prod.fst) :
    VC.get c n = 0 := by
  induction c with
  | nil => rfl
  | cons p rest ih =>
    obtain ⟨a, v⟩ := p
    simp only [List.map_cons, List.mem_cons] at h
    push_neg at h
    simp only [VC.get]
    rw [if_neg (fun he => h.1 he.symm)]
    exact ih h.2

theorem VC.get_nonneg (c : VC) (n : String) (h : ∀ p ∈ c, 0 ≤ p.2) :
    0 ≤ VC.get c n := by
  induction c with
  | nil => exact le_refl 0
  | cons p rest ih =>
    simp only [VC.get]
    split
    · exact h p (List.mem_cons_self p rest)
    · exact ih (fun q hq => h q (List.mem_cons_of_mem p hq))

theorem VC.mem_of_get (c : VC) (n : String) (h : n ∈ c.map Prod.fst) :
    (n, VC.get c n) ∈ c := by
  induction c with
  | nil => simp at h
  | cons p rest ih =>
    obtain ⟨a, v⟩ := p
    simp only [VC.get]
    by_cases hp : a = n
    · subst hp
      simp
    · rw [if_neg hp]
      simp only [List.map_cons, List.mem_cons] at h
      rcases h with h | h
      · exact absurd h.symm hp
      · exact List.mem_cons_of_mem _ (ih h)

theorem VC.get_of_mem_nodup (c : VC) (p : String × Int)
    (hnd : (c.map Prod.fst).Nodup) (hp : p ∈ c) :
    VC.get c p.1 = p.2 := by
  induction c with
  | nil => simp at hp
  | cons q rest ih =>
    simp only [List.map_cons, List.nodup_cons] at hnd
    rcases List.mem_cons.mp hp with h | h
    · subst h
      simp [VC.get]
    · simp only [VC.get]
      rw [if_neg]
      · exact ih hnd.2 h
      · intro hq
        exact hnd.1 (hq ▸ List.mem_map_of_mem Prod.fst h)

/-! ### Keys are preserved by increment and merge -/

theorem VC.incr_keys (c : VC) (nid : String) :
    (VC.incr c nid).map Prod.fst = c.map Prod.fst := by
  induction c with
  | nil => rfl
  | cons p rest ih =>
    obtain ⟨a, v⟩ := p
    by_cases hp : a = nid <;>
      simp only [VC.incr, List.map_cons, List.map_map, if_pos, if_neg, hp,
        ite_true, ite_false] <;>
      simp only [VC.incr, List.map_map] at ih <;>
      simp [ih]

theorem VC.merge_keys (c o : VC) :
    (VC.merge c o).map Prod.fst = c.map Prod.fst := by
  induction c with
  | nil => rfl
  | cons p rest ih =>
    obtain ⟨a, v⟩ := p
    simp only [VC.merge, List.map_cons, List.map_map] at ih ⊢
    simp [ih]

/-! ### Increment -/

theorem VC.get_incr_self (c : VC) (nid : String) (h : nid ∈ c.map Prod.fst) :
    VC.get (VC.incr c nid) nid = VC.get c nid + 1 := by
  induction c with
  | nil => simp at h
  | cons p rest ih =>
    obtain ⟨a, v⟩ := p
    by_cases hp : a = nid
    · subst hp
      simp [VC.incr, VC.get]
    · simp only [List.map_cons, List.mem_cons] at h
      rcases h with h | h
      · exact absurd h.symm hp
      · simpa [VC.incr, VC.get, hp] using ih h

theorem VC.get_incr_other (c : VC) (nid n : String) (h : n ≠ nid) :
    VC.get (VC.incr c nid) n = VC.get c n := by
  induction c with
  | nil => rfl
  | cons p rest ih =>
    obtain ⟨a, v⟩ := p
    by_cases hp : a = nid
    · subst hp
      have han : ¬ a = n := fun he => h he.symm
      simpa [VC.incr, VC.get, han] using ih
    · by_cases han : a = n
      · subst han
        simp [VC.incr, VC.get, hp]
      · simpa [VC.incr, VC.get, hp, han] using ih

theorem VC.get_incr_ge (c : VC) (nid n : String) :
    VC.get c n ≤ VC.get (VC.incr c nid) n := by
  by_cases h : n = nid
  · subst h
    by_cases hm : n ∈ c.map Prod.fst
    · rw [VC.get_incr_self c n hm]
      exact le_of_lt (lt_add_one _)
    · rw [VC.get_eq_zero_of_not_mem c n hm,
        VC.get_eq_zero_of_not_mem _ n (by rw [VC.incr_keys]; exact hm)]
  · rw [VC.get_incr_other c nid n h]

/-! ### Merge -/

theorem VC.get_merge (c o : VC) (n : String) (h : n ∈ c.map Prod.fst) :
    VC.get (VC.merge c o) n = max (VC.get c n) (VC.get o n) := by
  induction c with
  | nil => simp at h
  | cons p rest ih =>
    obtain ⟨a, v⟩ := p
    by_cases hp : a = n
    · subst hp
      simp [VC.merge, VC.get]
    · simp only [List.map_cons, List.mem_cons] at h
      rcases h with h | h
      · exact absurd h.symm hp
      · simpa [VC.merge, VC.get, hp] using ih h

theorem VC.get_merge_ge (c o : VC) (n : String) :
    VC.get c n ≤ VC.get (VC.merge c o) n := by
  by_cases h : n ∈ c.map Prod.fst
  · rw [VC.get_merge c o n h]
    exact le_max_left _ _
  · rw [VC.get_eq_zero_of_not_mem c n h,
      VC.get_eq_zero_of_not_mem _ n (by rw [VC.merge_keys]; exact h)]

/-! ### Clock growth and store growth across the engine operations -/

theorem drainStep_clock_ge (nId : String) (s : NodeState) (op : Doc) (m : String) :
    VC.get s.clock m ≤ VC.get (drainStep nId s op).clock m := by
  unfold drainStep
  split
  · exact le_refl _
  · split
    · simpa [aplicar_operacion] using VC.get_merge_ge s.clock op.vc m
    · exact le_refl _

theorem foldl_drain_clock_ge (nId : String) (l : List Doc) (s : NodeState) (m : String) :
    VC.get s.clock m ≤ VC.get (l.foldl (drainStep nId) s).clock m := by
  induction l generalizing s with
  | nil => exact le_refl _
  | cons op rest ih =>
    exact le_trans (drainStep_clock_ge nId s op m) (ih (drainStep nId s op))

theorem drainStep_store_sub (nId : String) (s : NodeState) (op : Doc) (x : Doc)
    (hx : x ∈ s.store) : x ∈ (drainStep nId s op).store := by
  unfold drainStep
  split
  · exact hx
  · split
    · simp only [aplicar_operacion, List.mem_append]
      exact Or.inl hx
    · exact hx

theorem foldl_drain_store_sub (nId : String) (l : List Doc) (s : NodeState) (x : Doc)
    (hx : x ∈ s.store) : x ∈ (l.foldl (drainStep nId) s).store := by
  induction l generalizing s with
  | nil => exact hx
  | cons op rest ih =>
    exact ih (drainStep nId s op) (drainStep_store_sub nId s op x hx)

theorem recibir_clock_ge (nId : String) (st : NodeState) (d : Doc) (m : String) :
    VC.get st.clock m ≤ VC.get (recibir_replicacion nId st d).1.clock m := by
  obtain ⟨dniF, origF, vcF, payF⟩ := d
  cases dniF with
  | none => exact le_refl _
  | some dni =>
    cases origF with
    | none => exact le_refl _
    | some origen =>
      simp only [recibir_replicacion]
      split
      · exact le_refl _
      · split
        · refine le_trans (VC.get_merge_ge st.clock vcF m) ?_
          simpa [procesar_hold_back_queue, aplicar_operacion] using
            foldl_drain_clock_ge nId
              (aplicar_operacion nId st ⟨some dni, some origen, vcF, payF⟩).queue
              (aplicar_operacion nId st ⟨some dni, some origen, vcF, payF⟩) m
        · exact le_refl _

theorem actualizar_clock_ge (nId : String) (st : NodeState) (dni : String)
    (a : Alumno) (m : String) :
    VC.get st.clock m ≤ VC.get (actualizar_alumno nId st dni a).1.clock m := by
  unfold actualizar_alumno
  split
  · exact VC.get_incr_ge st.clock nId m
  · exact le_refl _

theorem stepRun_clock_ge (nId : String) (st : NodeState) (s : Step) (m : String) :
    VC.get st.clock m ≤ VC.get (stepRun nId st s).clock m := by
  cases s with
  | create a => exact VC.get_incr_ge st.clock nId m
  | update dni a => exact actualizar_clock_ge nId st dni a m
  | receive d => exact recibir_clock_ge nId st d m

/-- C6: over every sequence of public entry points (local write, local
update, receiving a replicated operation together with the drain it
triggers), every slot of the local vector clock is non-decreasing: no
operation ever lowers any slot. -/
theorem clock_slots_nondecreasing (nodeId : String) (st : NodeState)
    (steps : List Step) (n : String) :
    VC.get st.clock n ≤ VC.get (run nodeId st steps).clock n := by
  induction steps generalizing st with
  | nil => exact le_refl _
  | cons s rest ih =>
    exact le_trans (stepRun_clock_ge nodeId st s n) (ih (stepRun nodeId st s))

/-! ### C1: the deliverability predicate -/

/-- C1: for every local clock L whose slots are non-negative and every
incoming operation with dict-shaped (duplicate-free) vector-clock snapshot
V and origin O, es_entregable returns true iff V[O] = L[O] + 1 and
V[N] <= L[N] for every node N different from O (absent slots reading 0);
in particular, against the all-zero local clock an operation from n2 with
VC (n1 0, n2 1, n3 0) is deliverable and one with VC (n1 0, n2 1, n3 1)
is not. -/
theorem es_entregable_correct (L V : VC) (O : String)
    (hV : (V.map Prod.fst).Nodup) (hL : ∀ p ∈ L, 0 ≤ p.2) :
    (es_entregable L V O = true ↔
      (VC.get V O = VC.get L O + 1 ∧ ∀ n, n ≠ O → VC.get V n ≤ VC.get L n)) ∧
    es_entregable [("n1", 0), ("n2", 0), ("n3", 0)]
      [("n1", 0), ("n2", 1), ("n3", 0)] "n2" = true ∧
    es_entregable [("n1", 0), ("n2", 0), ("n3", 0)]
      [("n1", 0), ("n2", 1), ("n3", 1)] "n2" = false := by
  refine ⟨?_, by decide, by decide⟩
  unfold es_entregable
  constructor
  · intro h
    by_cases h1 : VC.get V O = VC.get L O + 1
    · refine ⟨h1, ?_⟩
      rw [if_neg (fun hne => hne h1)] at h
      by_cases h2 : V.any (fun p => decide (p.1 ≠ O ∧ VC.get L p.1 < p.2)) = true
      · rw [if_pos h2] at h
        simp at h
      · intro n hn
        by_cases hmem : n ∈ V.map Prod.fst
        · by_contra hlt
          push_neg at hlt
          apply h2
          apply List.any_eq_true.mpr
          exact ⟨(n, VC.get V n), VC.mem_of_get V n hmem, by simp [hn, hlt]⟩
        · rw [VC.get_eq_zero_of_not_mem V n hmem]
          exact VC.get_nonneg L n hL
    · rw [if_pos h1] at h
      simp at h
  · rintro ⟨h1, h2⟩
    rw [if_neg (fun hne => hne h1), if_neg ?hany]
    case hany =>
      intro hany
      rcases List.any_eq_true.mp hany with ⟨p, hp, hpred⟩
      rcases of_decide_eq_true hpred with ⟨hne, hlt⟩
      have hget : VC.get V p.1 = p.2 := VC.get_of_mem_nodup V p hV hp
      have := h2 p.1 hne
      rw [hget] at this
      omega

/-- Witness for C1 at the example of the specification. -/
theorem es_entregable_correct_witness :
    ((([("n1", 0), ("n2", 1), ("n3", 0)] : VC).map Prod.fst).Nodup ∧
      ∀ p ∈ ([("n1", 0), ("n2", 0), ("n3", 0)] : VC), 0 ≤ p.2) ∧
    ((es_entregable [("n1", 0), ("n2", 0), ("n3", 0)]
        [("n1", 0), ("n2", 1), ("n3", 0)] "n2" = true ↔
      (VC.get [("n1", 0), ("n2", 1), ("n3", 0)] "n2" =
          VC.get [("n1", 0), ("n2", 0), ("n3", 0)] "n2" + 1 ∧
        ∀ n, n ≠ "n2" →
          VC.get [("n1", 0), ("n2", 1), ("n3", 0)] n ≤
            VC.get [("n1", 0), ("n2", 0), ("n3", 0)] n)) ∧
      es_entregable [("n1", 0), ("n2", 0), ("n3", 0)]
        [("n1", 0), ("n2", 1), ("n3", 0)] "n2" = true ∧
      es_entregable [("n1", 0), ("n2", 0), ("n3", 0)]
        [("n1", 0), ("n2", 1), ("n3", 1)] "n2" = false) :=
  ⟨⟨by decide, by decide⟩,
    es_entregable_correct [("n1", 0), ("n2", 0), ("n3", 0)]
      [("n1", 0), ("n2", 1), ("n3", 0)] "n2" (by decide) (by decide)⟩

/-! ### C8: malformed replication input -/

/-- C8: an incoming operation missing its record key or its origin node id
is rejected immediately (the malformed-input outcome, status string
"error" in the source) and the node state - record store, vector clock,
hold-back queue and log - is returned unchanged; it is never queued and
never applied. -/
theorem missing_fields_rejected (nId : String) (st : NodeState) (d : Doc)
    (h : d.dni? = none ∨ d.origin? = none) :
    recibir_replicacion nId st d = (st, RepStatus.error) := by
  obtain ⟨dniF, origF, vcF, payF⟩ := d
  cases dniF with
  | none => rfl
  | some k =>
    cases origF with
    | none => rfl
    | some o => rcases h with h | h <;> simp at h

/-- Witness for C8: a document with no dni is rejected with no change. -/
theorem missing_fields_rejected_witness :
    ((⟨none, some "n2", [], "p"⟩ : Doc).dni? = none ∨
      (⟨none, some "n2", [], "p"⟩ : Doc).origin? = none) ∧
    recibir_replicacion "n1" initState ⟨none, some "n2", [], "p"⟩ =
      (initState, RepStatus.error) :=
  ⟨Or.inl rfl,
    missing_fields_rejected "n1" initState ⟨none, some "n2", [], "p"⟩ (Or.inl rfl)⟩

/-! ### C10: operations whose snapshot lacks their own origin slot -/

/-- C10: VC.get reads absent slots as 0 on either clock; hence when the
local clock has only non-negative slots, an operation with key and origin
present, key not yet stored, and no entry for its own origin in its
vector-clock snapshot is never deliverable (the direct-successor check
would need the local origin slot to be -1), so recibir_replicacion
returns the queued status for it. -/
theorem missing_origin_slot_queued (nId : String) (st : NodeState) (d : Doc)
    (k o : String)
    (hL : ∀ p ∈ st.clock, 0 ≤ p.2)
    (hk : d.dni? = some k) (ho : d.origin? = some o)
    (habs : o ∉ d.vc.map Prod.fst)
    (hfresh : (find_one st.store k).isSome = false) :
    (∀ c : VC, ∀ m, m ∉ c.map Prod.fst → VC.get c m = 0) ∧
    es_entregable st.clock d.vc o = false ∧
    (recibir_replicacion nId st d).2 = RepStatus.queued := by
  have hfalse : es_entregable st.clock d.vc o = false := by
    unfold es_entregable
    have h0 := VC.get_nonneg st.clock o hL
    have hne : (0 : Int) ≠ VC.get st.clock o + 1 := by omega
    rw [VC.get_eq_zero_of_not_mem d.vc o habs, if_pos hne]
  refine ⟨fun c m hm => VC.get_eq_zero_of_not_mem c m hm, hfalse, ?_⟩
  obtain ⟨dniF, origF, vcF, payF⟩ := d
  have hk' : dniF = some k := hk
  have ho' : origF = some o := ho
  subst hk'
  subst ho'
  have hfalse' : es_entregable st.clock vcF o = false := hfalse
  simp only [recibir_replicacion]
  rw [if_neg (by simp [hfresh]), if_neg (by simp [hfalse'])]

/-- Witness for C10: an operation from n2 whose snapshot has no n2 slot is
queued against the initial state. -/
theorem missing_origin_slot_queued_witness :
    ((∀ p ∈ initState.clock, 0 ≤ p.2) ∧
      (⟨some "z", some "n2", [("n1", 1)], "pz"⟩ : Doc).dni? = some "z" ∧
      (⟨some "z", some "n2", [("n1", 1)], "pz"⟩ : Doc).origin? = some "n2" ∧
      "n2" ∉ (⟨some "z", some "n2", [("n1", 1)], "pz"⟩ : Doc).vc.map Prod.fst ∧
      (find_one initState.store "z").isSome = false) ∧
    (∀ c : VC, ∀ m, m ∉ c.map Prod.fst → VC.get c m = 0) ∧
    es_entregable initState.clock
      (⟨some "z", some "n2", [("n1", 1)], "pz"⟩ : Doc).vc "n2" = false ∧
    (recibir_replicacion "n1" initState
      ⟨some "z", some "n2", [("n1", 1)], "pz"⟩).2 = RepStatus.queued :=
  ⟨⟨by decide, rfl, rfl, by decide, rfl⟩,
    missing_origin_slot_queued "n1" initState
      ⟨some "z", some "n2", [("n1", 1)], "pz"⟩ "z" "n2"
      (by decide) rfl rfl (by decide) rfl⟩

/-! ### C5: algebra of the clock merge over the fixed node set -/

theorem VC.wf_shape (c : VC) (h : VC.wellFormed c) :
    ∃ x y z : Int, c = [("n1", x), ("n2", y), ("n3", z)] := by
  rcases c with _ | ⟨p, _ | ⟨q, _ | ⟨r, rest⟩⟩⟩
  · simp [VC.wellFormed, NODE_IDS] at h
  · simp [VC.wellFormed, NODE_IDS] at h
  · simp [VC.wellFormed, NODE_IDS] at h
  · obtain ⟨a1, v1⟩ := p
    obtain ⟨a2, v2⟩ := q
    obtain ⟨a3, v3⟩ := r
    simp only [VC.wellFormed, NODE_IDS, List.map_cons, List.cons.injEq] at h
    obtain ⟨h1, h2, h3, h4⟩ := h
    subst h1
    subst h2
    subst h3
    rw [List.map_eq_nil_iff] at h4
    subst h4
    exact ⟨v1, v2, v3, rfl⟩

/-- C5: the clock merge takes, for every node id in the fixed set, the
max of the local and the received slot, and over well-formed clocks it is
idempotent, commutative, and a no-op when merging with a pointwise
smaller-or-equal clock. -/
theorem merge_props (a b : VC)
    (ha : VC.wellFormed a) (hb : VC.wellFormed b) :
    (∀ n ∈ NODE_IDS, VC.get (VC.merge a b) n = max (VC.get a n) (VC.get b n)) ∧
    VC.merge a a = a ∧
    VC.merge a b = VC.merge b a ∧
    ((∀ n ∈ NODE_IDS, VC.get b n ≤ VC.get a n) → VC.merge a b = a) := by
  obtain ⟨x1, x2, x3, rfl⟩ := VC.wf_shape a ha
  obtain ⟨y1, y2, y3, rfl⟩ := VC.wf_shape b hb
  refine ⟨?_, ?_, ?_, ?_⟩
  · intro n hn
    simp only [NODE_IDS, List.mem_cons, List.not_mem_nil, or_false] at hn
    rcases hn with rfl | rfl | rfl <;> simp [VC.merge, VC.get]
  · simp [VC.merge, VC.get]
  · simp [VC.merge, VC.get, max_comm]
  · intro hle
    have h1 := hle "n1" (by simp [NODE_IDS])
    have h2 := hle "n2" (by simp [NODE_IDS])
    have h3 := hle "n3" (by simp [NODE_IDS])
    simp only [VC.get, if_pos, if_neg] at h1 h2 h3
    simp at h1 h2 h3
    simp [VC.merge, VC.get, max_eq_left h1, max_eq_left h2, max_eq_left h3]

def vca : VC := [("n1", 1), ("n2", 0), ("n3", 2)]

def vcb : VC := [("n1", 0), ("n2", 3), ("n3", 2)]

/-- Witness for C5 at two concrete well-formed clocks. -/
theorem merge_props_witness :
    (VC.wellFormed vca ∧ VC.wellFormed vcb) ∧
    ((∀ n ∈ NODE_IDS, VC.get (VC.merge vca vcb) n = max (VC.get vca n) (VC.get vcb n)) ∧
      VC.merge vca vca = vca ∧
      VC.merge vca vcb = VC.merge vcb vca ∧
      ((∀ n ∈ NODE_IDS, VC.get vcb n ≤ VC.get vca n) → VC.merge vca vcb = vca)) :=
  ⟨⟨by decide, by decide⟩, merge_props vca vcb (by decide) (by decide)⟩

/-! ### C2: the drain is a single pass over a snapshot, not a fixed point -/

def opA : Doc := ⟨some "a", some "n2", [("n2", 3)], "pa"⟩

def opB : Doc := ⟨some "b", some "n2", [("n2", 2)], "pb"⟩

def opC : Doc := ⟨some "c", some "n2", [("n2", 1)], "pc"⟩

def stAB : NodeState :=
  (recibir_replicacion "n1" (recibir_replicacion "n1" initState opA).1 opB).1

def resC : NodeState × RepStatus := recibir_replicacion "n1" stAB opC

/-- C2 is violated: procesar_hold_back_queue makes one pass over a
snapshot of the queue and is not repeated until a pass delivers nothing.
Queue the n2 ops with slots 3 then 2 (both undeliverable), then receive
the n2 op with slot 1: the call returns delivered, the pass delivers the
slot-2 op (scanned after the clock advanced) but ends with the slot-3 op
still queued even though it is deliverable against the returned clock. -/
theorem drain_not_fixpoint_counterexample :
    (recibir_replicacion "n1" initState opA).2 = RepStatus.queued ∧
    (recibir_replicacion "n1" (recibir_replicacion "n1" initState opA).1 opB).2 =
      RepStatus.queued ∧
    resC.2 = RepStatus.delivered ∧
    resC.1.queue = [opA] ∧
    es_entregable resC.1.clock opA.vc "n2" = true := by
  refine ⟨rfl, rfl, rfl, rfl, rfl⟩

def opQ : Doc := ⟨some "q", some "n2", [("n1", 0), ("n2", 2), ("n3", 0)], "pq"⟩

def opD : Doc := ⟨some "d", some "n2", [("n1", 0), ("n2", 1), ("n3", 0)], "pd"⟩

def resD : NodeState × RepStatus :=
  recibir_replicacion "n1" (recibir_replicacion "n1" initState opQ).1 opD

/-- C2 (amended): recibir_replicacion follows a delivery with a single
scan over a snapshot of the hold-back queue, re-checking each entry
against the clock current at its turn, so a queued operation that the
delivery unblocks is cascade-delivered in the same call when the scan
reaches it; in the example of the specification - clock all zero, a
queued n2 operation with slot n2 = 2, then a received n2 operation with
slot n2 = 1 - the call returns delivered, leaves the queue empty and the
clock at n2 = 2.  The scan is not repeated to a fixed point, so an
unblocked operation earlier in scan order than the delivery that unblocks
it can remain queued (see the counterexample). -/
theorem drain_single_pass_cascade :
    (recibir_replicacion "n1" initState opQ).2 = RepStatus.queued ∧
    resD.2 = RepStatus.delivered ∧
    resD.1.queue = [] ∧
    resD.1.clock = [("n1", 0), ("n2", 2), ("n3", 0)] := by
  refine ⟨rfl, rfl, rfl, rfl⟩

/-! ### C3: queued versus applied -/

def opX : Doc := ⟨some "x", some "n2", [("n2", 2)], "px"⟩

def stC3 : NodeState :=
  (crear_alumno "n1" (recibir_replicacion "n1" initState opX).1 ⟨"x", "local"⟩).1

/-- C3 is violated: after the op for key x from n2 is queued (not yet
deliverable) a local write for the same key x is accepted without
consulting the queue, reaching a state where the op sits in the hold-back
queue while its key is present in the record store. -/
theorem queued_and_applied_counterexample :
    (recibir_replicacion "n1" initState opX).2 = RepStatus.queued ∧
    stC3.queue = [opX] ∧
    opX.dni? = some "x" ∧
    (find_one stC3.store "x").isSome = true := by
  refine ⟨rfl, rfl, rfl, rfl⟩

/-- C3 (amended): the no-queued-and-applied invariant holds at enqueue
time only: when recibir_replicacion queues an operation, the store is
unchanged, the operation is appended to the queue, and its key is not
present in the record store at that moment.  The invariant is not
preserved afterwards: a later local write, or a cascade delivery of a
different operation carrying the same key, can insert the key while the
operation stays queued (see the counterexample). -/
theorem queued_key_fresh_at_enqueue (nId : String) (st : NodeState) (d : Doc)
    (h : (recibir_replicacion nId st d).2 = RepStatus.queued) :
    (recibir_replicacion nId st d).1.store = st.store ∧
    (recibir_replicacion nId st d).1.queue = st.queue ++ [d] ∧
    ∃ k, d.dni? = some k ∧ (find_one st.store k).isSome = false := by
  obtain ⟨dniF, origF, vcF, payF⟩ := d
  cases dniF with
  | none => simp [recibir_replicacion] at h
  | some k =>
    cases origF with
    | none => simp [recibir_replicacion] at h
    | some o =>
      simp only [recibir_replicacion] at h ⊢
      by_cases hf : (find_one st.store k).isSome = true
      · rw [if_pos hf] at h
        simp at h
      · rw [if_neg hf] at h
        rw [if_neg hf]
        by_cases he : es_entregable st.clock vcF o = true
        · rw [if_pos he] at h
          simp at h
        · rw [if_neg he] at h
          rw [if_neg he]
          exact ⟨rfl, rfl, k, rfl, by simpa using hf⟩

/-- Witness for the amended C3 at a concrete queued operation. -/
theorem queued_key_fresh_at_enqueue_witness :
    (recibir_replicacion "n1" initState opX).2 = RepStatus.queued ∧
    ((recibir_replicacion "n1" initState opX).1.store = initState.store ∧
      (recibir_replicacion "n1" initState opX).1.queue = initState.queue ++ [opX] ∧
      ∃ k, opX.dni? = some k ∧ (find_one initState.store k).isSome = false) :=
  ⟨rfl, queued_key_fresh_at_enqueue "n1" initState opX rfl⟩

/-! ### Lookup lemmas for the record store -/

theorem find_one_isSome_of_mem (store : List Doc) (x : Doc) (k : String)
    (hx : x ∈ store) (hk : x.dni? = some k) :
    (find_one store k).isSome = true := by
  induction store with
  | nil => simp at hx
  | cons d ds ih =>
    by_cases hd : d.dni? = some k
    · rw [find_one, List.find?_cons_of_pos _ (by simp [hd])]
      rfl
    · rw [find_one, List.find?_cons_of_neg _ (by simp [hd])]
      rcases List.mem_cons.mp hx with rfl | hmem
      · exact absurd hk hd
      · exact ih hmem

theorem find_one_append_of_none (s1 s2 : List Doc) (k : String)
    (h : find_one s1 k = none) :
    find_one (s1 ++ s2) k = find_one s2 k := by
  induction s1 with
  | nil => rfl
  | cons d ds ih =>
    by_cases hd : d.dni? = some k
    · rw [find_one, List.find?_cons_of_pos _ (by simp [hd])] at h
      simp at h
    · rw [find_one, List.find?_cons_of_neg _ (by simp [hd])] at h
      rw [List.cons_append, find_one, List.find?_cons_of_neg _ (by simp [hd])]
      exact ih h

theorem procesar_store_sub (nId : String) (s : NodeState) (x : Doc)
    (hx : x ∈ s.store) : x ∈ (procesar_hold_back_queue nId s).store :=
  foldl_drain_store_sub nId s.queue s x hx

/-! ### C4: idempotent duplicate rejection -/

/-- C4: when a replicated operation for key k is delivered, any further
operation carrying the same key (with its origin present, as every
well-formed operation has) is answered with ignored and the state after
the first call - record store, vector clock, hold-back queue and log - is
returned exactly unchanged: the duplicate is never re-applied and never
queued. -/
theorem duplicate_ignored (nId : String) (st st1 : NodeState) (d1 d2 : Doc) (k : String)
    (h1 : recibir_replicacion nId st d1 = (st1, RepStatus.delivered))
    (hk1 : d1.dni? = some k) (hk2 : d2.dni? = some k)
    (ho2 : (d2.origin?).isSome = true) :
    recibir_replicacion nId st1 d2 = (st1, RepStatus.ignored) := by
  have hmem : (find_one st1.store k).isSome = true := by
    obtain ⟨dniF, origF, vcF, payF⟩ := d1
    have hk1' : dniF = some k := hk1
    subst hk1'
    cases origF with
    | none => simp [recibir_replicacion] at h1
    | some o =>
      simp only [recibir_replicacion] at h1
      by_cases hf : (find_one st.store k).isSome = true
      · rw [if_pos hf] at h1
        simp at h1
      · rw [if_neg hf] at h1
        by_cases he : es_entregable st.clock vcF o = true
        · rw [if_pos he] at h1
          simp only [Prod.mk.injEq] at h1
          obtain ⟨hst, -⟩ := h1
          subst hst
          refine find_one_isSome_of_mem _ ⟨some k, some o, vcF, payF⟩ k ?_ rfl
          refine procesar_store_sub nId _ _ ?_
          simp [aplicar_operacion]
        · rw [if_neg he] at h1
          simp at h1
  obtain ⟨dniF2, origF2, vcF2, payF2⟩ := d2
  have hk2' : dniF2 = some k := hk2
  subst hk2'
  cases origF2 with
  | none => simp at ho2
  | some o2 =>
    simp only [recibir_replicacion]
    rw [if_pos hmem]

def dW1 : Doc := ⟨some "w", some "n2", [("n2", 1)], "p1"⟩

def dW2 : Doc := ⟨some "w", some "n3", [("n3", 5)], "p2"⟩

def stW : NodeState := (recibir_replicacion "n1" initState dW1).1

/-- Witness for C4: deliver key w from n2, then a second op with key w. -/
theorem duplicate_ignored_witness :
    (recibir_replicacion "n1" initState dW1 = (stW, RepStatus.delivered) ∧
      dW1.dni? = some "w" ∧ dW2.dni? = some "w" ∧ (dW2.origin?).isSome = true) ∧
    recibir_replicacion "n1" stW dW2 = (stW, RepStatus.ignored) :=
  ⟨⟨rfl, rfl, rfl, rfl⟩,
    duplicate_ignored "n1" initState stW dW1 dW2 "w" rfl rfl rfl rfl⟩

/-! ### C7: the local write round trip -/

def stOld : NodeState := (crear_alumno "n1" initState ⟨"x", "old"⟩).1

def resNew : NodeState × VC × Nat := crear_alumno "n1" stOld ⟨"x", "new"⟩

/-- C7 is violated for prior states that already hold the written key:
crear_alumno never checks for an existing key, the store keeps both
documents, and the lookup returns the first (old) one, not the payload
just written. -/
theorem local_write_roundtrip_counterexample :
    (obtener_alumno resNew.1 "x").map Doc.payload = some "old" ∧
    ¬ (obtener_alumno resNew.1 "x").map Doc.payload = some "new" := by
  refine ⟨rfl, by decide⟩

/-- C7 (amended): for every prior state whose clock holds a slot for the
writing node (true of every reachable state) and in which the written key
is not yet present, a local write increments exactly the own slot of the
writing node by 1, leaves every other slot unchanged, returns that
incremented clock to the caller, and a subsequent lookup by the written
key returns the written payload unchanged.  When the key is already
present the clock statements still hold but the lookup returns the
previously stored document (see the counterexample). -/
theorem local_write_roundtrip (nId : String) (st : NodeState) (a : Alumno)
    (hmem : nId ∈ st.clock.map Prod.fst)
    (hfresh : (find_one st.store a.dni).isSome = false) :
    VC.get (crear_alumno nId st a).1.clock nId = VC.get st.clock nId + 1 ∧
    (∀ m, m ≠ nId → VC.get (crear_alumno nId st a).1.clock m = VC.get st.clock m) ∧
    (crear_alumno nId st a).2.1 = (crear_alumno nId st a).1.clock ∧
    (obtener_alumno (crear_alumno nId st a).1 a.dni).map Doc.payload =
      some a.payload := by
  refine ⟨VC.get_incr_self st.clock nId hmem,
    fun m hm => VC.get_incr_other st.clock nId m hm, rfl, ?_⟩
  have hnone : find_one st.store a.dni = none := by
    cases hfo : find_one st.store a.dni
    · rfl
    · rw [hfo] at hfresh
      simp at hfresh
  show (find_one
      (st.store ++ [⟨some a.dni, some nId, VC.incr st.clock nId, a.payload⟩])
      a.dni).map Doc.payload = some a.payload
  rw [find_one_append_of_none _ _ _ hnone]
  rw [find_one, List.find?_cons_of_pos _ (by simp)]
  rfl

/-- Witness for the amended C7: a fresh write of key x into the initial
state. -/
theorem local_write_roundtrip_witness :
    ("n1" ∈ initState.clock.map Prod.fst ∧
      (find_one initState.store "x").isSome = false) ∧
    (VC.get (crear_alumno "n1" initState ⟨"x", "px"⟩).1.clock "n1" =
        VC.get initState.clock "n1" + 1 ∧
      (∀ m, m ≠ "n1" →
        VC.get (crear_alumno "n1" initState ⟨"x", "px"⟩).1.clock m =
          VC.get initState.clock m) ∧
      (crear_alumno "n1" initState ⟨"x", "px"⟩).2.1 =
        (crear_alumno "n1" initState ⟨"x", "px"⟩).1.clock ∧
      (obtener_alumno (crear_alumno "n1" initState ⟨"x", "px"⟩).1 "x").map
          Doc.payload = some "px") :=
  ⟨⟨by decide, rfl⟩, local_write_roundtrip "n1" initState ⟨"x", "px"⟩ (by decide) rfl⟩

/-! ### C9: operations for keys that already exist are never applied -/

/-- C9: every operation whose record key already exists in the receiving
store - in particular every operation produced by a local update on a
peer, which always carries its key and its origin node id - is answered
with ignored, and the receiving state (store, clock, queue, log) is
returned unchanged, so the stored payload for that key is not changed and
replicated update operations are never applied at a peer that already
holds the key. -/
theorem existing_key_ignored (nId : String) (st : NodeState) (d : Doc) (k o : String)
    (hk : d.dni? = some k) (ho : d.origin? = some o)
    (hhas : (find_one st.store k).isSome = true) :
    recibir_replicacion nId st d = (st, RepStatus.ignored) ∧
    (∀ nS stS stS' a du, actualizar_alumno nS stS k a = (stS', some du) →
      du.dni? = some k ∧ du.origin? = some nS) := by
  constructor
  · obtain ⟨dniF, origF, vcF, payF⟩ := d
    have hk' : dniF = some k := hk
    have ho' : origF = some o := ho
    subst hk'
    subst ho'
    simp only [recibir_replicacion]
    rw [if_pos hhas]
  · intro nS stS stS' a du hupd
    unfold actualizar_alumno at hupd
    by_cases hf : (find_one stS.store k).isSome = true
    · rw [if_pos hf] at hupd
      simp only [Prod.mk.injEq] at hupd
      obtain ⟨-, h2⟩ := hupd
      obtain rfl := Option.some.inj h2
      exact ⟨rfl, rfl⟩
    · rw [if_neg hf] at hupd
      simp at hupd

def dUpd : Doc := ⟨some "x", some "n2", [("n1", 1), ("n2", 1), ("n3", 0)], "upd"⟩

/-- Witness for C9: an update-style op for the existing key x is ignored
by a node that already holds x. -/
theorem existing_key_ignored_witness :
    (dUpd.dni? = some "x" ∧ dUpd.origin? = some "n2" ∧
      (find_one stOld.store "x").isSome = true) ∧
    (recibir_replicacion "n1" stOld dUpd = (stOld, RepStatus.ignored) ∧
      (∀ nS stS stS' a du, actualizar_alumno nS stS "x" a = (stS', some du) →
        du.dni? = some "x" ∧ du.origin? = some nS)) :=
  ⟨⟨rfl, rfl, rfl⟩, existing_key_ignored "n1" stOld dUpd "x" "n2" rfl rfl rfl⟩
